import Mathlib

set_option autoImplicit false

universe u
/-!
Verification of the double_event_dataset repository.

This file gives a shallow embedding, in Lean 4, of the core logic of the
repository:

* the multi-event synthesis loop of `double_event_dataset/utils.py`
  (`__main__` block, lines 295-308): a zero-initialised buffer of length
  `max(len(maxtrace), pt + len(mintrace))` receives the long trace at
  offset 0 and is then overwritten with the short trace at offset `pt`;
* `ChannelTracesCollection.pairs` (`itertools.combinations(data, 2)`);
* `read_stream`, the cache-or-fetch resolution and the grouping loop of
  `get_events` (`double_event_dataset/utils.py`, lines 77-157);
* `_load_input_dataframe` (lines 52-69);
* `download_waveform` and the `__main__` batch loop of `download.py`.

Modelling conventions:

* Waveform samples are only ever copied around (never combined
  arithmetically) by the code under study, so sample values are modelled
  as integers.
* Values that Python only renders to strings (`str(mag)`,
  `time.isoformat("T")`, ...) are carried as their string renderings.
* The filesystem and the network are a single oracle
  `Reader : String → Option (List Trace)` mapping a locator (path or
  URL) to the parsed stream that `obspy.read` would return (`none` when
  reading raises), matching the fact that the code uses the same `read`
  call for both.  Persisting a stream updates the oracle at the cache
  path.  Directories are not modelled as objects; the outcome of the
  unguarded `makedirs` call is an oracle `mkdirRaises` on the directory
  name, and the outcome of the guarded `stream.write` is an oracle
  `writeOk` on the file path.
* `numpy` slice assignment `buf[a:a+len(vals)] = vals` is modelled by
  `setSlice`, which is exact whenever `a + len(vals) ≤ len(buf)` (true at
  both call sites of the synthesis loop).
-/
/-- A parsed trace: an identifier (what `trace.get_id()` returns) and its
samples. -/
structure Trace where
  tid : String
  samples : List Int
deriving DecidableEq
/-- Model of `numpy` slice assignment `buf[s : s + vals.length] = vals`,
exact whenever `s + vals.length ≤ buf.length`. -/
def setSlice (buf : List Int) (s : Nat) (vals : List Int) : List Int :=
  buf.take s ++ vals ++ buf.drop (s + vals.length)
/-- One synthetic multi-event waveform, from the `__main__` synthesis loop of
`double_event_dataset/utils.py` (lines 298-301): allocate
`np.zeros(max(len(maxtrace), pt + len(mintrace)))`, copy the long trace at
offset 0, then overwrite with the short trace at offset `pt`. -/
def synthOne (long short : List Int) (k : Nat) : List Int :=
  let n := max long.length (k + short.length)
  setSlice (setSlice (List.replicate n 0) 0 long) k short
/-- The synthesis loop: one synthetic waveform per drawn offset, in order
(`for pt_ in pts: ... multievent_traces.append(new_trace)`). -/
def synthesize (long short : List Int) (pts : List Nat) : List (List Int) :=
  pts.map (synthOne long short)
/-- `itertools.combinations(l, 2)`: all pairs with the first item fixed, in
original order, before advancing the first item. -/
def combinations2 {α : Type u} : List α → List (α × α)
  | [] => []
  | x :: xs => xs.map (fun y => (x, y)) ++ combinations2 xs
/-- One row of the input dataframe of `double_event_dataset/utils.py`.
Values the code only ever renders to strings (`str(mag)`,
`time.isoformat("T")`, ...) are carried as their string renderings
(fields suffixed `S`). -/
structure CatalogRow where
  segment_db_id : Int
  url : String
  classlabel : String
  magS : String
  latS : String
  lonS : String
  depthS : String
  distS : String
  timeS : String
  starttimeS : String
  endtimeS : String
  net : String
  sta : String
  loc : String
  cha : String
deriving DecidableEq
/-- The container yielded by `get_events` (class `ChannelTracesCollection`
of `double_event_dataset/utils.py`). -/
structure ChannelTracesCollection where
  net : String
  sta : String
  loc : String
  cha : String
  data : List (Trace × CatalogRow)
deriving DecidableEq
/-- Property `numtraces`. -/
def ChannelTracesCollection.numtraces (c : ChannelTracesCollection) : Nat :=
  c.data.length
/-- Property `id`: `net + "." + sta + "." + loc + "." + cha`. -/
def ChannelTracesCollection.id (c : ChannelTracesCollection) : String :=
  c.net ++ "." ++ c.sta ++ "." ++ c.loc ++ "." ++ c.cha
/-- Property `traces`. -/
def ChannelTracesCollection.traces (c : ChannelTracesCollection) : List Trace :=
  c.data.map Prod.fst
/-- Property `metadata`. -/
def ChannelTracesCollection.metadata (c : ChannelTracesCollection) :
    List CatalogRow :=
  c.data.map Prod.snd
/-- Property `pairs`: `itertools.combinations(self.data, 2)`. -/
def ChannelTracesCollection.pairs (c : ChannelTracesCollection) :
    List ((Trace × CatalogRow) × (Trace × CatalogRow)) :=
  combinations2 c.data

/-- A concrete catalog row used by witnesses. -/
def sampleRow : CatalogRow :=
  { segment_db_id := 2618452
    url := "http://webservices.example.org/fdsnws/dataselect/1/query"
    classlabel := "urb_single"
    magS := "3.0"
    latS := "42.8562"
    lonS := "13.2533"
    depthS := "8.5"
    distS := "0.185072"
    timeS := "2016-10-11T07:32:50"
    starttimeS := "2016-10-11T07:31:55"
    endtimeS := "2016-10-11T07:35:55"
    net := "3A"
    sta := "MZ01"
    loc := ""
    cha := "EHE" }

-- ----------------------------------------------------------------------
-- Locators, the read oracle, and read_stream
-- ----------------------------------------------------------------------

/-- The grouping key (net, sta, loc, cha). -/
structure ChannelKey where
  net : String
  sta : String
  loc : String
  cha : String
deriving DecidableEq

/-- The world `obspy.read` sees: maps a locator (local path or URL) to
the parsed stream, `none` when reading raises. -/
def Reader : Type := String → Option (List Trace)

/-- Updating the world at a path, as `stream.write` does. -/
def setFile (w : Reader) (p : String) (s : List Trace) : Reader :=
  fun q => if q = p then some s else w q

/-- Python truthiness of an optional string (`if root_dir:`,
`if not file_or_url:`): `None` and the empty string are falsy. -/
def truthyStr : Option String → Bool
  | none => false
  | some s => !(s == "")

/-- Key of a catalog row. -/
def keyOf (r : CatalogRow) : ChannelKey :=
  ⟨r.net, r.sta, r.loc, r.cha⟩

/-- `channel_id_str = "%s.%s.%s.%s" % (net, sta, loc, cha)`. -/
def channelIdStr (k : ChannelKey) : String :=
  k.net ++ "." ++ k.sta ++ "." ++ k.loc ++ "." ++ k.cha

/-- The per-row fetch URL of `get_events` (utils.py lines 103-106). -/
def fileUrl (r : CatalogRow) : String :=
  r.url ++ "?net=" ++ r.net ++ "&sta=" ++ r.sta ++ "&loc=" ++ r.loc ++
    "&cha=" ++ r.cha ++ "&starttime=" ++ r.starttimeS ++
    "&endtime=" ++ r.endtimeS

/-- The descriptive cache file name (utils.py lines 109-112). -/
def cacheFileName (r : CatalogRow) : String :=
  "mag=" ++ r.magS ++ "_lat=" ++ r.latS ++ "_lon=" ++ r.lonS ++
    "_depth=" ++ r.depthS ++ "_time=" ++ r.timeS

/-- The cache path `join(root_dir, channel_id_str, filename + ".mseed")`. -/
def filePath (root_dir : String) (r : CatalogRow) : String :=
  root_dir ++ "/" ++ channelIdStr (keyOf r) ++ "/" ++ cacheFileName r ++ ".mseed"

/-- POSIX `os.path.dirname`. -/
def dirname (p : String) : String :=
  let rev := p.toList.reverse
  let head := (rev.dropWhile (fun c => c ≠ '/')).reverse
  if head.isEmpty || head.all (fun c => c = '/') then String.mk head
  else String.mk ((head.reverse.dropWhile (fun c => c = '/')).reverse)

/-- `read_stream` (utils.py lines 143-157): wrapper around `obspy.read`
that, with `raise_on_err=False`, returns `none` instead of raising. -/
def read_stream (world : Reader) (file_or_url : Option String)
    (raise_on_err : Bool) : Except String (Option (List Trace)) :=
  if truthyStr file_or_url = false then
    if raise_on_err then .error "Can not read Stream: invalid path"
    else .ok none
  else
    match world (file_or_url.getD "") with
    | some s => .ok (some s)
    | none =>
      if raise_on_err then .error "read failed" else .ok none

/-- `read_stream` at its default `raise_on_err=False`, as called by
`get_events`. -/
def readStreamD (world : Reader) (file_or_url : Option String) :
    Option (List Trace) :=
  match read_stream world file_or_url false with
  | .ok s => s
  | .error _ => none

-- ----------------------------------------------------------------------
-- Per-row cache-or-fetch resolution (utils.py lines 103-125)
-- ----------------------------------------------------------------------

/-- The `file_path` computed inside the row loop (utils.py lines
107-113): the cache path when a truthy `root_dir` was given, else
`None`. -/
def cachePathOpt (root_dir : Option String) (row : CatalogRow) :
    Option String :=
  if truthyStr root_dir then some (filePath (root_dir.getD "") row)
  else none

/-- The cache-or-fetch resolution of one catalog row (utils.py lines
103-125): try the cache path, fall back to the URL, persist a successful
fetch when a cache path exists.  `mkdirRaises d` tells whether the
unguarded `makedirs(d)` call raises (it is outside the try/except);
`writeOk p` tells whether `stream.write(p, ...)` succeeds (its failure is
swallowed by the bare `except`). -/
def resolveStream (writeOk mkdirRaises : String → Bool)
    (root_dir : Option String) (world : Reader) (row : CatalogRow) :
    Except String (Option (List Trace) × Reader) :=
  match readStreamD world (cachePathOpt root_dir row) with
  | some s => .ok (some s, world)
  | none =>
    match readStreamD world (some (fileUrl row)) with
    | none => .ok (none, world)
    | some s =>
      match cachePathOpt root_dir row with
      | none => .ok (some s, world)
      | some fp =>
        if truthyStr (some fp) then
          if mkdirRaises (dirname fp) then .error "makedirs raised"
          else if writeOk fp then .ok (some s, setFile world fp s)
          else .ok (some s, world)
        else .ok (some s, world)

/-- The outcome a row contributes to its group when no cache is involved:
`some (trace, row)` when the fetched stream has exactly one trace. -/
def rowEntry (world : Reader) (r : CatalogRow) : Option (Trace × CatalogRow) :=
  match world (fileUrl r) with
  | some [t] => some (t, r)
  | _ => none

/-- One iteration of the row loop of `get_events` (utils.py lines
102-139): resolve, discard on `None` stream or on a stream with more than
one trace, append `(trace, series)` otherwise. -/
def stepRow (writeOk mkdirRaises : String → Bool) (root_dir : Option String)
    (acc : List (Trace × CatalogRow) × Reader) (row : CatalogRow) :
    Except String (List (Trace × CatalogRow) × Reader) :=
  match resolveStream writeOk mkdirRaises root_dir acc.2 row with
  | .error e => .error e
  | .ok (none, w) => .ok (acc.1, w)
  | .ok (some s, w) =>
    match s with
    | [t] => .ok (acc.1 ++ [(t, row)], w)
    | _ => .ok (acc.1, w)

/-- The row loop of `get_events` over one channel group. -/
def processGroup (writeOk mkdirRaises : String → Bool)
    (root_dir : Option String) (world : Reader) (rows : List CatalogRow) :
    Except String (List (Trace × CatalogRow) × Reader) :=
  List.foldlM (stepRow writeOk mkdirRaises root_dir) ([], world) rows

-- ----------------------------------------------------------------------
-- Grouping (utils.py lines 93-140)
-- ----------------------------------------------------------------------

/-- Lexicographic comparison of channel keys, the order `groupby` sorts
group keys into. -/
def keyLe (a b : ChannelKey) : Bool :=
  match compare a.net b.net with
  | .lt => true
  | .gt => false
  | .eq =>
    match compare a.sta b.sta with
    | .lt => true
    | .gt => false
    | .eq =>
      match compare a.loc b.loc with
      | .lt => true
      | .gt => false
      | .eq =>
        match compare a.cha b.cha with
        | .gt => false
        | _ => true

/-- Ordered insertion for `sortKeys`. -/
def insertLe (le : ChannelKey → ChannelKey → Bool) (x : ChannelKey) :
    List ChannelKey → List ChannelKey
  | [] => [x]
  | y :: ys => if le x y then x :: y :: ys else y :: insertLe le x ys

/-- Insertion sort of the distinct group keys. -/
def sortKeys (le : ChannelKey → ChannelKey → Bool) :
    List ChannelKey → List ChannelKey
  | [] => []
  | k :: ks => insertLe le k (sortKeys le ks)

/-- The `classlabel` argument of `get_events`: a string (exact match), a
list of strings (membership), or anything else (no filtering). -/
inductive ClassFilter where
  | noFilter : ClassFilter
  | single : String → ClassFilter
  | several : List String → ClassFilter

/-- The class-label filtering of `get_events` (utils.py lines 94-97). -/
def filterClass : ClassFilter → List CatalogRow → List CatalogRow
  | .noFilter, rows => rows
  | .single s, rows => rows.filter (fun r => r.classlabel == s)
  | .several ss, rows => rows.filter (fun r => ss.contains r.classlabel)

/-- Building the yielded collection of one group. -/
def mkColl (k : ChannelKey) (data : List (Trace × CatalogRow)) :
    ChannelTracesCollection :=
  ⟨k.net, k.sta, k.loc, k.cha, data⟩

/-- The group loop of `get_events`: one `ChannelTracesCollection` yielded
per group key, the read world threading through the groups. -/
def groupsLoop (writeOk mkdirRaises : String → Bool)
    (root_dir : Option String) (dfr : List CatalogRow) (world : Reader) :
    List ChannelKey → Except String (List ChannelTracesCollection × Reader)
  | [] => .ok ([], world)
  | k :: ks =>
    match processGroup writeOk mkdirRaises root_dir world
        (dfr.filter (fun r => keyOf r == k)) with
    | .error e => .error e
    | .ok (data, w1) =>
      match groupsLoop writeOk mkdirRaises root_dir dfr w1 ks with
      | .error e => .error e
      | .ok (cols, w2) => .ok (mkColl k data :: cols, w2)

/-- `get_events` (utils.py lines 77-140): filter by class label, group by
(net, sta, loc, cha) in sorted key order, resolve each row cache-first,
and yield one collection per group. -/
def get_events (writeOk mkdirRaises : String → Bool)
    (root_dir : Option String) (classlabel : ClassFilter) (world : Reader)
    (rows : List CatalogRow) :
    Except String (List ChannelTracesCollection × Reader) :=
  let dfr := filterClass classlabel rows
  groupsLoop writeOk mkdirRaises root_dir dfr world
    (sortKeys keyLe ((dfr.map keyOf).dedup))

-- ----------------------------------------------------------------------
-- Catalog loading (utils.py lines 52-69)
-- ----------------------------------------------------------------------

/-- A location cell as `pd.read_csv` delivers it.  `read_csv` is given
no `dtype` for the `loc` column, so its per-column dtype inference
decides what a present cell holds: the original text, or a number when
the whole column looks numeric (an all-numeric column delivers the code
"00" as the number 0).  The loader below never inspects or converts a
present cell; it only replaces missing cells, so the payload is opaque
to it. -/
inductive CsvCell where
  | str : String → CsvCell
  | num : Int → CsvCell
deriving DecidableEq

/-- A raw row as `pd.read_csv` delivers it: `none` is a missing value
(NaN).  Timestamp and numeric cells are carried as raw text; `to_datetime`
and numeric parsing are outside the scope of the missing-value checks
modelled here.  The `loc` cell is a `CsvCell`: whether it holds text or a
number was already decided by dtype inference, before any code of this
repository ran. -/
structure RawRow where
  segment_db_id : Option Int
  url : Option String
  classlabel : Option String
  mag : Option String
  magtype : Option String
  lat : Option String
  lon : Option String
  depth_km : Option String
  time : Option String
  dist_deg : Option String
  net : Option String
  sta : Option String
  loc : Option CsvCell
  cha : Option String
  starttime : Option String
  endtime : Option String
deriving DecidableEq

/-- A row after `_load_input_dataframe` succeeded: the asserted columns
hold values, the numeric columns may still be missing.  The `loc` column
holds whatever cell `read_csv` delivered, with missing cells replaced by
the empty-string cell. -/
structure LoadedRow where
  segment_db_id : Option Int
  url : String
  classlabel : String
  mag : Option String
  magtype : String
  lat : Option String
  lon : Option String
  depth_km : Option String
  time : String
  dist_deg : Option String
  net : String
  sta : String
  loc : CsvCell
  cha : String
  starttime : String
  endtime : String
deriving DecidableEq

/-- The `loc` normalisation
`dfr.loc[pd.isna(dfr[loc]), loc] = ""` (utils.py line 56): missing
location codes become the empty string before anything is checked. -/
def fixLoc (r : RawRow) : RawRow :=
  { r with loc := some (r.loc.getD (CsvCell.str "")) }

/-- The successful outcome of `_load_input_dataframe` on a raw row whose
asserted columns all hold values. -/
def loadRow (r : RawRow) : LoadedRow :=
  { segment_db_id := r.segment_db_id
    url := r.url.getD ""
    classlabel := r.classlabel.getD ""
    mag := r.mag
    magtype := r.magtype.getD ""
    lat := r.lat
    lon := r.lon
    depth_km := r.depth_km
    time := r.time.getD ""
    dist_deg := r.dist_deg
    net := r.net.getD ""
    sta := r.sta.getD ""
    loc := r.loc.getD (CsvCell.str "")
    cha := r.cha.getD ""
    starttime := r.starttime.getD ""
    endtime := r.endtime.getD "" }

/-- `_load_input_dataframe` (utils.py lines 52-69): convert missing `loc`
to the empty string, then assert that none of
starttime/endtime/time/net/sta/loc/cha/magtype/classlabel/url has a
missing value (`assert not pd.isna(dfr[col]).any()`), in that column
order; a failing assert raises `AssertionError`. -/
def _load_input_dataframe (rows : List RawRow) : Except String (List LoadedRow) :=
  if (rows.map fixLoc).any (fun r => r.starttime.isNone) then .error "AssertionError"
  else if (rows.map fixLoc).any (fun r => r.endtime.isNone) then .error "AssertionError"
  else if (rows.map fixLoc).any (fun r => r.time.isNone) then .error "AssertionError"
  else if (rows.map fixLoc).any (fun r => r.net.isNone) then .error "AssertionError"
  else if (rows.map fixLoc).any (fun r => r.sta.isNone) then .error "AssertionError"
  else if (rows.map fixLoc).any (fun r => r.loc.isNone) then .error "AssertionError"
  else if (rows.map fixLoc).any (fun r => r.cha.isNone) then .error "AssertionError"
  else if (rows.map fixLoc).any (fun r => r.magtype.isNone) then .error "AssertionError"
  else if (rows.map fixLoc).any (fun r => r.classlabel.isNone) then .error "AssertionError"
  else if (rows.map fixLoc).any (fun r => r.url.isNone) then .error "AssertionError"
  else .ok (rows.map loadRow)

/-- Missing value in any column whose assert can actually fire (every
asserted column except `loc`, whose missing values were already replaced
by the empty string). -/
def hasFatalMissing (r : RawRow) : Bool :=
  r.starttime.isNone || r.endtime.isNone || r.time.isNone ||
    r.net.isNone || r.sta.isNone || r.cha.isNone ||
    r.magtype.isNone || r.classlabel.isNone || r.url.isNone

-- ----------------------------------------------------------------------
-- download.py
-- ----------------------------------------------------------------------

/-- A row of `urls.csv` as `download.py` consumes it.  The query
parameters of the URL (`parse_qs(urlparse(url).query)`) are carried
pre-parsed as `qnet`/`qsta`/`qloc`/`qcha`; `qloc` already reflects
`qdic.get("loc", [""])[0]`. -/
structure DLRow where
  url : String
  qnet : String
  qsta : String
  qloc : String
  qcha : String
  evt_mag : String
  evt_magtype : String
  evt_lat : String
  evt_lon : String
  evt_depth_km : String
  evt_time : String
  seg_db_id : String
  classLabel : String
deriving DecidableEq

/-- `seg_seed_id = "%s.%s.%s.%s" % (...)` (download.py lines 26-30). -/
def seedId (r : DLRow) : String :=
  r.qnet ++ "." ++ r.qsta ++ "." ++ r.qloc ++ "." ++ r.qcha

/-- The descriptive file name of `download.py` (lines 33-35). -/
def dlFname (r : DLRow) : String :=
  "mag=" ++ r.evt_mag ++ ";magt=" ++ r.evt_magtype ++ ";lat=" ++ r.evt_lat ++
    ";lon=" ++ r.evt_lon ++ ";depth=" ++ r.evt_depth_km ++
    ";time=" ++ r.evt_time ++ ";id=" ++ r.seg_db_id

/-- `destfilepath = os.path.join(rootdir, class_label, seg_seed_id,
fname + ".mseed")` (download.py lines 38-39). -/
def destPath (rootdir : String) (r : DLRow) : String :=
  rootdir ++ "/" ++ r.classLabel ++ "/" ++ seedId r ++ "/" ++ dlFname r ++ ".mseed"

/-- `download_waveform` (download.py lines 15-55): skip when the
destination exists, otherwise fetch, reject multi-trace streams and
identity mismatches, detrend and write.  `isfile`, `read_mseed`,
`detrend` and `writeRes` are the filesystem / network / obspy oracles;
every `.error` is a raised exception. -/
def download_waveform (isfile : String → Bool)
    (read_mseed : String → Except String (List Trace))
    (detrend : Trace → Trace) (writeRes : String → Except String Unit)
    (rootdir : String) (r : DLRow) : Except String Unit :=
  let dest := destPath rootdir r
  if isfile dest then .ok ()
  else
    match read_mseed r.url with
    | .error e => .error e
    | .ok s =>
      match s with
      | [t0] =>
        let t := detrend t0
        if t.tid ≠ seedId r then
          .error "Requested miniSEED ID differs from actual one"
        else writeRes dest
      | _ => .error "traces in stream, maybe due to gaps or overlaps"

/-- Python `%` formatting restricted to the `%d`/`%s`/`%%` directives:
consuming a directive with no argument left raises
`TypeError: not enough arguments for format string`; leftover arguments
raise as well. -/
def pyFormat : List Char → List String → Except String String
  | [], [] => .ok ""
  | [], _ :: _ => .error "not all arguments converted during string formatting"
  | '%' :: c :: rest, args =>
    if c = 'd' ∨ c = 's' then
      match args with
      | [] => .error "not enough arguments for format string"
      | a :: args2 => (pyFormat rest args2).map (fun t => a ++ t)
    else if c = '%' then (pyFormat rest args).map (fun t => "%" ++ t)
    else .error "unsupported format character"
  | ['%'], _ => .error "incomplete format"
  | c :: rest, args => (pyFormat rest args).map (fun t => String.mk [c] ++ t)

/-- The per-row loop of the `__main__` block of download.py (lines
82-88): every row is attempted, successes are counted, a failing row only
prints a warning. -/
def batchStats (isfile : String → Bool)
    (read_mseed : String → Except String (List Trace))
    (detrend : Trace → Trace) (writeRes : String → Except String Unit)
    (rootdir : String) (rows : List DLRow) : Nat × Nat :=
  rows.foldl
    (fun acc r =>
      match download_waveform isfile read_mseed detrend writeRes rootdir r with
      | .ok _ => (acc.1 + 1, acc.2)
      | .error _ => (acc.1, acc.2 + 1))
    (0, 0)

/-- The final report format string of download.py line 90. -/
def doneFmt : String := "Done, %d segment saved under %s"

/-- The `__main__` batch pass of download.py (lines 80-90): run the row
loop, then print `"Done, %d segment saved under %s" % (saved, )` — the
tuple holds a single element.  The returned value is the reported
(saved, warned) counts; an `.error` is an uncaught exception. -/
def download_main (isfile : String → Bool)
    (read_mseed : String → Except String (List Trace))
    (detrend : Trace → Trace) (writeRes : String → Except String Unit)
    (rootdir : String) (rows : List DLRow) : Except String (Nat × Nat) :=
  let st := batchStats isfile read_mseed detrend writeRes rootdir rows
  match pyFormat doneFmt.toList [toString st.1] with
  | .ok _ => .ok st
  | .error e => .error e

/-- A concrete trace used by witnesses. -/
def sampleTrace : Trace := ⟨"3A.MZ01..EHE", [1]⟩

/-- A concrete world for witnesses: the URL of the sample row resolves to a
single-trace stream, everything else fails to read. -/
def sampleWorld : Reader :=
  fun u => if u = fileUrl sampleRow then some [sampleTrace] else none

/-- A second concrete catalog row whose URL does not resolve under
`sampleWorld`. -/
def badRow : CatalogRow :=
  { sampleRow with starttimeS := "2016-10-12T00:00:00",
                   endtimeS := "2016-10-12T00:04:00" }

/-- A raw catalog row with every column present. -/
def rawGood : RawRow :=
  { segment_db_id := some 2618452
    url := some "http://webservices.example.org/fdsnws/dataselect/1/query"
    classlabel := some "urb_single"
    mag := some "3.0"
    magtype := some "ML"
    lat := some "42.8562"
    lon := some "13.2533"
    depth_km := some "8.5"
    time := some "2016-10-11 07:32:50"
    dist_deg := some "0.185072"
    net := some "3A"
    sta := some "MZ01"
    loc := some (CsvCell.str "00")
    cha := some "EHE"
    starttime := some "2016-10-11 07:31:55"
    endtime := some "2016-10-11 07:35:55" }

/-- The same raw row with a missing (NaN) location code. -/
def rawNoLoc : RawRow := { rawGood with loc := none }
-- ----------------------------------------------------------------------
-- Lemmas about setSlice / synthOne
-- ----------------------------------------------------------------------
theorem length_setSlice (buf : List Int) (s : Nat) (vals : List Int)
    (h : s + vals.length ≤ buf.length) :
    (setSlice buf s vals).length = buf.length := by
  simp only [setSlice, List.length_append, List.length_take, List.length_drop]
  omega
theorem getElem?_setSlice (buf : List Int) (s : Nat) (vals : List Int) (i : Nat)
    (h : s + vals.length ≤ buf.length) :
    (setSlice buf s vals)[i]? =
      if s ≤ i ∧ i < s + vals.length then vals[i - s]? else buf[i]? := by
  have hs : s ≤ buf.length := by omega
  have hlt : (buf.take s).length = s := by simp; omega
  unfold setSlice
  rw [List.append_assoc]
  by_cases h1 : i < s
  · rw [if_neg (by omega)]
    rw [List.getElem?_append_left (by omega)]
    rw [List.getElem?_take, if_pos h1]
  · by_cases h2 : i < s + vals.length
    · rw [if_pos ⟨by omega, h2⟩]
      rw [List.getElem?_append_right (by omega)]
      rw [hlt]
      rw [List.getElem?_append_left (by omega)]
    · rw [if_neg (by omega)]
      rw [List.getElem?_append_right (by omega)]
      rw [hlt, List.getElem?_append_right (by omega)]
      rw [List.getElem?_drop]
      congr 1
      omega
theorem length_inner_synth (long short : List Int) (k : Nat) :
    (setSlice (List.replicate (max long.length (k + short.length)) (0 : Int))
      0 long).length = max long.length (k + short.length) := by
  rw [length_setSlice _ _ _ (by simp)]
  simp
theorem length_synthOne (long short : List Int) (k : Nat) :
    (synthOne long short k).length = max long.length (k + short.length) := by
  unfold synthOne
  rw [length_setSlice _ _ _ (by rw [length_inner_synth]; omega)]
  exact length_inner_synth long short k
theorem getElem?_synthOne (long short : List Int) (k : Nat) (i : Nat) :
    (synthOne long short k)[i]? =
      if k ≤ i ∧ i < k + short.length then short[i - k]?
      else if i < long.length then long[i]?
      else (List.replicate (max long.length (k + short.length)) (0 : Int))[i]? := by
  unfold synthOne
  rw [getElem?_setSlice _ _ _ _ (by rw [length_inner_synth]; omega)]
  by_cases h1 : k ≤ i ∧ i < k + short.length
  · rw [if_pos h1, if_pos h1]
  · rw [if_neg h1, if_neg h1]
    rw [getElem?_setSlice _ _ _ _ (by simp)]
    by_cases h2 : i < long.length
    · rw [if_pos (by omega), if_pos h2]
      simp
    · rw [if_neg (by omega), if_neg h2]
theorem length_combinations2 {α : Type u} (l : List α) :
    (combinations2 l).length = Nat.choose l.length 2 := by
  induction l with
  | nil => simp [combinations2]
  | cons x xs ih =>
    simp [combinations2, ih, Nat.choose_succ_succ, Nat.choose_one_right]
theorem mem_combinations2 {α : Type u} (l : List α) (p : α × α) :
    p ∈ combinations2 l ↔ [p.1, p.2].Sublist l := by
  induction l with
  | nil => simp [combinations2]
  | cons x xs ih =>
    simp only [combinations2, List.mem_append, List.mem_map]
    constructor
    · rintro (⟨y, hy, hxy⟩ | h)
      · rw [← hxy]
        exact List.cons_sublist_cons.2 (List.singleton_sublist.2 hy)
      · exact (ih.1 h).trans (List.sublist_cons_self x xs)
    · intro h
      cases h with
      | cons _ h2 => exact Or.inr (ih.2 h2)
      | cons₂ _ h2 =>
        exact Or.inl ⟨p.2, List.singleton_sublist.1 h2, rfl⟩
theorem mem_combinations2_elts {α : Type u} (l : List α) (p : α × α)
    (h : p ∈ combinations2 l) : p.1 ∈ l ∧ p.2 ∈ l := by
  have hs := (mem_combinations2 l p).1 h
  exact ⟨hs.subset (by simp), hs.subset (by simp)⟩
theorem nodup_combinations2 {α : Type u} (l : List α) (h : l.Nodup) :
    (combinations2 l).Nodup := by
  induction l with
  | nil => simp [combinations2]
  | cons x xs ih =>
    rw [List.nodup_cons] at h
    simp only [combinations2]
    rw [List.nodup_append]
    refine ⟨List.Nodup.map ?_ h.2, ih h.2, ?_⟩
    · intro a b hab
      simpa using hab
    · intro p hp hq
      simp only [List.mem_map] at hp
      obtain ⟨y, _, hy⟩ := hp
      have h1 : p.1 ∈ xs := (mem_combinations2_elts xs p hq).1
      rw [← hy] at h1
      exact h.1 h1
-- ----------------------------------------------------------------------
-- Claim C1 / C9 theorems
-- ----------------------------------------------------------------------
/-- C1: for every pair of input waveforms (`long` the one with
greater-or-equal sample count) and every list of drawn offsets, the
synthesis loop returns exactly one waveform per requested offset; for a
drawn offset `k < len(long)` the output has sample count
`max(len(long), k + len(short))`, its samples at indices `[0, k)` equal
the samples of `long`; at `[k, k + len(short))` the samples of `short`
(overwritten, not added); and at `[k + len(short), len(long))` the
samples of `long`. -/
theorem synthesis_overwrite_spec (long short : List Int) (pts : List Nat)
    (k : Nat) (hshort : short.length ≤ long.length) (hk : k < long.length) :
    (synthesize long short pts).length = pts.length ∧
    (synthOne long short k).length = max long.length (k + short.length) ∧
    (∀ i, i < k → (synthOne long short k)[i]? = long[i]?) ∧
    (∀ i, k ≤ i → i < k + short.length →
      (synthOne long short k)[i]? = short[i - k]?) ∧
    (∀ i, k + short.length ≤ i → i < long.length →
      (synthOne long short k)[i]? = long[i]?) := by
  refine ⟨List.length_map _ _, length_synthOne long short k, ?_, ?_, ?_⟩
  · intro i hi
    rw [getElem?_synthOne]
    rw [if_neg (by omega), if_pos (by omega)]
  · intro i h1 h2
    rw [getElem?_synthOne]
    rw [if_pos ⟨h1, h2⟩]
  · intro i h1 h2
    rw [getElem?_synthOne]
    rw [if_neg (by omega), if_pos h2]
/-- Witness for `synthesis_overwrite_spec` at long = [1,2,3,4],
short = [5,6], k = 3, pts = [3]. -/
theorem synthesis_overwrite_spec_witness :
    (2 : Nat) ≤ 4 ∧ (3 : Nat) < 4 ∧
    ((synthesize [1, 2, 3, 4] [5, 6] [3]).length = 1 ∧
     (synthOne [1, 2, 3, 4] [5, 6] 3).length = max 4 (3 + 2) ∧
     (∀ i, i < 3 → (synthOne [1, 2, 3, 4] [5, 6] 3)[i]? = [(1 : Int), 2, 3, 4][i]?) ∧
     (∀ i, 3 ≤ i → i < 3 + 2 →
       (synthOne [1, 2, 3, 4] [5, 6] 3)[i]? = [(5 : Int), 6][i - 3]?) ∧
     (∀ i, 3 + 2 ≤ i → i < 4 →
       (synthOne [1, 2, 3, 4] [5, 6] 3)[i]? = [(1 : Int), 2, 3, 4][i]?)) := by
  refine ⟨by decide, by decide, ?_⟩
  have h := synthesis_overwrite_spec [1, 2, 3, 4] [5, 6] [3] 3
    (by decide) (by decide)
  simpa using h
/-- C9: with a drawn offset `k < len(long)`, the zero-initialised output
buffer is completely overwritten: every output index lies below
`len(long)` or inside `[k, k + len(short))`, and every output sample comes
from `short` (in the overwrite window) or from `long` (elsewhere) — no
residual zero from the allocation survives. -/
theorem synthesis_no_residual_zeros (long short : List Int) (k : Nat)
    (hk : k < long.length) :
    (∀ i, i < (synthOne long short k).length →
      i < long.length ∨ (k ≤ i ∧ i < k + short.length)) ∧
    (∀ i, i < (synthOne long short k).length →
      (synthOne long short k)[i]? =
        if k ≤ i ∧ i < k + short.length then short[i - k]? else long[i]?) := by
  constructor
  · intro i hi
    rw [length_synthOne] at hi
    omega
  · intro i hi
    rw [length_synthOne] at hi
    rw [getElem?_synthOne]
    by_cases h1 : k ≤ i ∧ i < k + short.length
    · rw [if_pos h1, if_pos h1]
    · rw [if_neg h1, if_neg h1, if_pos (by omega)]
/-- Witness for `synthesis_no_residual_zeros` at long = [7,8], short = [9],
k = 1. -/
theorem synthesis_no_residual_zeros_witness :
    (1 : Nat) < 2 ∧
    ((∀ i, i < (synthOne [7, 8] [9] 1).length →
       i < 2 ∨ (1 ≤ i ∧ i < 1 + 1)) ∧
     (∀ i, i < (synthOne [7, 8] [9] 1).length →
       (synthOne [7, 8] [9] 1)[i]? =
         if 1 ≤ i ∧ i < 1 + 1 then [(9 : Int)][i - 1]? else [(7 : Int), 8][i]?)) := by
  refine ⟨by decide, ?_⟩
  have h := synthesis_no_residual_zeros [7, 8] [9] 1 (by decide)
  simpa using h
/-- C2: `pairs` yields exactly the `C(numtraces, 2)` unordered
2-combinations of the pair sequence — no repeats (when the entries are
distinct), no self-pairs, membership is exactly "first entry occurs
before second entry", and for a three-element collection `[A, B, C]` the
order is exactly `[(A,B), (A,C), (B,C)]`. -/
theorem pairs_enumeration_spec (c : ChannelTracesCollection) :
    c.pairs.length = Nat.choose c.numtraces 2 ∧
    (∀ p, p ∈ c.pairs ↔ [p.1, p.2].Sublist c.data) ∧
    (c.data.Nodup → c.pairs.Nodup) ∧
    (∀ net sta loc cha A B C,
      (ChannelTracesCollection.mk net sta loc cha [A, B, C]).pairs =
        [(A, B), (A, C), (B, C)]) := by
  refine ⟨length_combinations2 c.data, fun p => mem_combinations2 c.data p,
    nodup_combinations2 c.data, ?_⟩
  intro net sta loc cha A B C
  simp [ChannelTracesCollection.pairs, combinations2]
/-- Witness for `pairs_enumeration_spec` on a concrete three-element
collection. -/
theorem pairs_enumeration_spec_witness :
    (ChannelTracesCollection.mk "N" "S" "" "C"
        [(⟨"a", []⟩, sampleRow), (⟨"b", []⟩, sampleRow), (⟨"c", []⟩, sampleRow)]).pairs.length =
      Nat.choose 3 2 ∧
    (ChannelTracesCollection.mk "N" "S" "" "C"
        [(⟨"a", []⟩, sampleRow), (⟨"b", []⟩, sampleRow), (⟨"c", []⟩, sampleRow)]).pairs =
      [((⟨"a", []⟩, sampleRow), (⟨"b", []⟩, sampleRow)), ((⟨"a", []⟩, sampleRow), (⟨"c", []⟩, sampleRow)),
       ((⟨"b", []⟩, sampleRow), (⟨"c", []⟩, sampleRow))] := by
  constructor
  · exact (pairs_enumeration_spec _).1
  · exact (pairs_enumeration_spec
      (ChannelTracesCollection.mk "N" "S" "" "C" [])).2.2.2 "N" "S" "" "C" _ _ _

-- ----------------------------------------------------------------------
-- Resolver basics
-- ----------------------------------------------------------------------

theorem fileUrl_ne_empty (r : CatalogRow) : fileUrl r ≠ "" := by
  intro h
  have h2 := congrArg String.length h
  simp only [fileUrl, String.length_append] at h2
  have h5 : ("?net=" : String).length = 5 := rfl
  have h0 : ("" : String).length = 0 := rfl
  omega

theorem filePath_ne_empty (rd : String) (r : CatalogRow) :
    filePath rd r ≠ "" := by
  intro h
  have h2 := congrArg String.length h
  simp only [filePath, String.length_append] at h2
  have h5 : ("/" : String).length = 1 := rfl
  have h0 : ("" : String).length = 0 := rfl
  omega

theorem readStreamD_none_loc (world : Reader) :
    readStreamD world none = none := rfl

theorem readStreamD_some_loc (world : Reader) (u : String) (hu : u ≠ "") :
    readStreamD world (some u) = world u := by
  unfold readStreamD read_stream
  have ht : truthyStr (some u) = true := by
    simp [truthyStr, hu]
  rw [ht]
  cases hw : world ((some u : Option String).getD "") with
  | none => simp [Option.getD] at hw ⊢; rw [hw]
  | some s => simp [Option.getD] at hw ⊢; rw [hw]

theorem resolveStream_root_none (wk mk : String → Bool) (world : Reader)
    (row : CatalogRow) :
    resolveStream wk mk none world row = .ok (world (fileUrl row), world) := by
  unfold resolveStream
  rw [readStreamD_some_loc world _ (fileUrl_ne_empty row)]
  cases hw : world (fileUrl row) with
  | none => rfl
  | some s => rfl

theorem stepRow_root_none (wk mk : String → Bool) (world : Reader)
    (data : List (Trace × CatalogRow)) (row : CatalogRow) :
    stepRow wk mk none (data, world) row =
      .ok (data ++ (rowEntry world row).toList, world) := by
  unfold stepRow
  rw [resolveStream_root_none]
  unfold rowEntry
  cases hw : world (fileUrl row) with
  | none => simp [hw]
  | some s =>
    cases s with
    | nil => simp [hw]
    | cons t ts =>
      cases ts with
      | nil => simp [hw]
      | cons t2 ts2 => simp [hw]

theorem foldRows_root_none (wk mk : String → Bool) (world : Reader)
    (rows : List CatalogRow) (data : List (Trace × CatalogRow)) :
    List.foldlM (stepRow wk mk none) (data, world) rows =
      .ok (data ++ rows.filterMap (rowEntry world), world) := by
  induction rows generalizing data with
  | nil => simp; rfl
  | cons r rs ih =>
    rw [List.foldlM_cons, stepRow_root_none]
    show List.foldlM (stepRow wk mk none)
      (data ++ (rowEntry world r).toList, world) rs = _
    rw [ih]
    cases hw : rowEntry world r with
    | none => simp [List.filterMap_cons, hw]
    | some e => simp [List.filterMap_cons, hw]

theorem processGroup_root_none (wk mk : String → Bool) (world : Reader)
    (rows : List CatalogRow) :
    processGroup wk mk none world rows =
      .ok (rows.filterMap (rowEntry world), world) := by
  unfold processGroup
  rw [foldRows_root_none]
  simp

theorem groupsLoop_root_none (wk mk : String → Bool)
    (dfr : List CatalogRow) (world : Reader) (ks : List ChannelKey) :
    groupsLoop wk mk none dfr world ks =
      .ok (ks.map (fun k =>
        mkColl k ((dfr.filter (fun r => keyOf r == k)).filterMap
          (rowEntry world))), world) := by
  induction ks with
  | nil => rfl
  | cons k ks ih =>
    unfold groupsLoop
    simp [processGroup_root_none, ih]

theorem resolveStream_ok (wk mk : String → Bool) (rd : Option String)
    (world : Reader) (row : CatalogRow) (hmk : ∀ p, mk p = false) :
    ∃ res w2, resolveStream wk mk rd world row = .ok (res, w2) := by
  unfold resolveStream
  cases h1 : readStreamD world (cachePathOpt rd row) with
  | some s => exact ⟨some s, world, by simp only [h1]⟩
  | none =>
    cases h2 : readStreamD world (some (fileUrl row)) with
    | none => exact ⟨none, world, by simp only [h1, h2]⟩
    | some s =>
      simp only [h1, h2]
      cases h3 : cachePathOpt rd row with
      | none => exact ⟨some s, world, rfl⟩
      | some fp =>
        dsimp only
        by_cases h4 : truthyStr (some fp) = true
        · rw [if_pos h4, hmk, if_neg (by simp)]
          by_cases h5 : wk fp = true
          · exact ⟨some s, setFile world fp s, by rw [if_pos h5]⟩
          · exact ⟨some s, world, by rw [if_neg h5]⟩
        · rw [if_neg h4]
          exact ⟨some s, world, rfl⟩

theorem stepRow_ok (wk mk : String → Bool) (rd : Option String)
    (world : Reader) (data : List (Trace × CatalogRow)) (row : CatalogRow)
    (hmk : ∀ p, mk p = false) :
    ∃ data2 w2, stepRow wk mk rd (data, world) row = .ok (data2, w2) ∧
      data.length ≤ data2.length ∧ data2.length ≤ data.length + 1 := by
  obtain ⟨res, w2, hres⟩ := resolveStream_ok wk mk rd world row hmk
  unfold stepRow
  rw [hres]
  cases res with
  | none => exact ⟨data, w2, rfl, le_refl _, by omega⟩
  | some s =>
    cases s with
    | nil => exact ⟨data, w2, rfl, le_refl _, by omega⟩
    | cons t ts =>
      cases ts with
      | nil => exact ⟨data ++ [(t, row)], w2, rfl, by simp, by simp⟩
      | cons t2 ts2 => exact ⟨data, w2, rfl, le_refl _, by omega⟩

theorem foldRows_ok (wk mk : String → Bool) (rd : Option String)
    (rows : List CatalogRow) (data : List (Trace × CatalogRow))
    (world : Reader) (hmk : ∀ p, mk p = false) :
    ∃ data2 w2,
      List.foldlM (stepRow wk mk rd) (data, world) rows = .ok (data2, w2) ∧
      data.length ≤ data2.length ∧
      data2.length ≤ data.length + rows.length := by
  induction rows generalizing data world with
  | nil => exact ⟨data, world, by simp; rfl, le_refl _, by simp⟩
  | cons r rs ih =>
    obtain ⟨d1, w1, h1, hlo, hhi⟩ := stepRow_ok wk mk rd world data r hmk
    obtain ⟨d2, w2, h2, hlo2, hhi2⟩ := ih d1 w1
    refine ⟨d2, w2, ?_, by omega, by simp; omega⟩
    rw [List.foldlM_cons, h1]
    exact h2

theorem processGroup_ok (wk mk : String → Bool) (rd : Option String)
    (world : Reader) (rows : List CatalogRow) (hmk : ∀ p, mk p = false) :
    ∃ data w2, processGroup wk mk rd world rows = .ok (data, w2) ∧
      data.length ≤ rows.length := by
  obtain ⟨data, w2, h, _, hhi⟩ := foldRows_ok wk mk rd rows [] world hmk
  exact ⟨data, w2, h, by simpa using hhi⟩

theorem groupsLoop_ok (wk mk : String → Bool) (rd : Option String)
    (dfr : List CatalogRow) (world : Reader) (ks : List ChannelKey)
    (hmk : ∀ p, mk p = false) :
    ∃ cols w2, groupsLoop wk mk rd dfr world ks = .ok (cols, w2) ∧
      cols.length = ks.length ∧
      (cols.map (fun c => c.numtraces)).sum ≤
        (ks.map (fun k => (dfr.filter (fun r => keyOf r == k)).length)).sum := by
  induction ks generalizing world with
  | nil => exact ⟨[], world, rfl, rfl, by simp⟩
  | cons k ks ih =>
    obtain ⟨data, w1, h1, hle⟩ := processGroup_ok wk mk rd world
      (dfr.filter (fun r => keyOf r == k)) hmk
    obtain ⟨cols, w2, h2, hlen, hsum⟩ := ih w1
    refine ⟨mkColl k data :: cols, w2, ?_, by simp [hlen], ?_⟩
    · unfold groupsLoop
      rw [h1]
      dsimp only
      rw [h2]
    · simp only [List.map_cons, List.sum_cons]
      have : (mkColl k data).numtraces = data.length := rfl
      rw [this]
      omega

-- ----------------------------------------------------------------------
-- Sorting and partition lemmas
-- ----------------------------------------------------------------------

theorem perm_insertLe (le : ChannelKey → ChannelKey → Bool) (x : ChannelKey)
    (l : List ChannelKey) : List.Perm (insertLe le x l) (x :: l) := by
  induction l with
  | nil => exact List.Perm.refl _
  | cons y ys ih =>
    unfold insertLe
    by_cases h : le x y = true
    · rw [if_pos h]
    · rw [if_neg h]
      exact (ih.cons y).trans (List.Perm.swap x y ys)

theorem perm_sortKeys (le : ChannelKey → ChannelKey → Bool)
    (l : List ChannelKey) : List.Perm (sortKeys le l) l := by
  induction l with
  | nil => exact List.Perm.refl _
  | cons k ks ih =>
    exact (perm_insertLe le k (sortKeys le ks)).trans (ih.cons k)

theorem length_sortKeys (le : ChannelKey → ChannelKey → Bool)
    (l : List ChannelKey) : (sortKeys le l).length = l.length :=
  (perm_sortKeys le l).length_eq

theorem filter_length_split (l : List CatalogRow) (p : CatalogRow → Bool) :
    (l.filter p).length + (l.filter (fun r => !(p r))).length = l.length := by
  induction l with
  | nil => rfl
  | cons r rs ih =>
    by_cases h : p r = true
    · simp [List.filter_cons, h, ← ih]
      omega
    · rw [Bool.not_eq_true] at h
      simp [List.filter_cons, h, ← ih]
      omega

theorem sum_filter_lengths (dfr : List CatalogRow) (ks : List ChannelKey)
    (hnd : ks.Nodup) (hcov : ∀ r ∈ dfr, keyOf r ∈ ks) :
    (ks.map (fun k => (dfr.filter (fun r => keyOf r == k)).length)).sum =
      dfr.length := by
  induction ks generalizing dfr with
  | nil =>
    cases dfr with
    | nil => rfl
    | cons r rs => exact absurd (hcov r (by simp)) (by simp)
  | cons k ks ih =>
    rw [List.nodup_cons] at hnd
    simp only [List.map_cons, List.sum_cons]
    have hrest : ∀ k2 ∈ ks,
        (dfr.filter (fun r => keyOf r == k2)).length =
        ((dfr.filter (fun r => !(keyOf r == k))).filter
          (fun r => keyOf r == k2)).length := by
      intro k2 hk2
      rw [List.filter_filter]
      congr 1
      apply List.filter_congr
      intro r _
      by_cases h : keyOf r == k2
      · have hne : k2 ≠ k := fun he => hnd.1 (he ▸ hk2)
        have : keyOf r = k2 := by simpa using h
        have : ¬(keyOf r == k) := by simp [this]; exact hne
        simp_all
      · simp_all
    have hmapeq : (ks.map (fun k2 => (dfr.filter (fun r => keyOf r == k2)).length)) =
        (ks.map (fun k2 => ((dfr.filter (fun r => !(keyOf r == k))).filter
          (fun r => keyOf r == k2)).length)) :=
      List.map_congr_left hrest
    rw [hmapeq, ih _ hnd.2 ?_]
    · exact filter_length_split dfr (fun r => keyOf r == k)
    · intro r hr
      rw [List.mem_filter] at hr
      have := hcov r hr.1
      simp only [List.mem_cons] at this
      rcases this with h | h
      · exfalso
        have := hr.2
        simp [h] at this
      · exact h

theorem filterMap_rowEntry_all (world : Reader) (l : List CatalogRow)
    (h : ∀ r ∈ l, ∃ t, world (fileUrl r) = some [t]) :
    (l.filterMap (rowEntry world)).length = l.length ∧
    (l.filterMap (rowEntry world)).map Prod.snd = l ∧
    (∀ p ∈ l.filterMap (rowEntry world), world (fileUrl p.2) = some [p.1]) := by
  induction l with
  | nil => exact ⟨rfl, rfl, by simp⟩
  | cons r rs ih =>
    obtain ⟨t, ht⟩ := h r (by simp)
    have hentry : rowEntry world r = some (t, r) := by
      unfold rowEntry
      rw [ht]
    obtain ⟨ihl, ihm, ihp⟩ := ih (fun r2 hr2 => h r2 (by simp [hr2]))
    rw [List.filterMap_cons, hentry]
    refine ⟨by simp [ihl], by simp [ihm], ?_⟩
    intro p hp
    simp only [List.mem_cons] at hp
    rcases hp with hp | hp
    · rw [hp]
      exact ht
    · exact ihp p hp

theorem sortedKeys_nodup (dfr : List CatalogRow) :
    (sortKeys keyLe ((dfr.map keyOf).dedup)).Nodup :=
  (perm_sortKeys keyLe _).nodup_iff.2 (List.nodup_dedup _)

theorem sortedKeys_cover (dfr : List CatalogRow) (r : CatalogRow)
    (hr : r ∈ dfr) : keyOf r ∈ sortKeys keyLe ((dfr.map keyOf).dedup) :=
  (perm_sortKeys keyLe _).mem_iff.2
    (List.mem_dedup.2 (List.mem_map_of_mem keyOf hr))

/-- C3: with a benign filesystem (`makedirs` never raises), `get_events`
yields exactly one collection per distinct channel key of the
class-filtered table (including empty collections), the pair counts sum
to at most the number of filtered rows, and — without a cache directory
and with the fetch of every row yielding a single-trace stream — exactly to
that number. -/
theorem get_events_group_counts (wk mk : String → Bool)
    (rd : Option String) (cls : ClassFilter) (world : Reader)
    (rows : List CatalogRow) (hmk : ∀ p, mk p = false) :
    ∃ cols w2,
      get_events wk mk rd cls world rows = .ok (cols, w2) ∧
      cols.length = ((filterClass cls rows).map keyOf).dedup.length ∧
      (cols.map (fun c => c.numtraces)).sum ≤ (filterClass cls rows).length ∧
      (rd = none →
        (∀ r ∈ filterClass cls rows, ∃ t, world (fileUrl r) = some [t]) →
        (cols.map (fun c => c.numtraces)).sum = (filterClass cls rows).length) := by
  obtain ⟨cols, w2, h, hlen, hsum⟩ := groupsLoop_ok wk mk rd
    (filterClass cls rows) world
    (sortKeys keyLe (((filterClass cls rows).map keyOf).dedup)) hmk
  have hpart := sum_filter_lengths (filterClass cls rows)
    (sortKeys keyLe (((filterClass cls rows).map keyOf).dedup))
    (sortedKeys_nodup _) (sortedKeys_cover _)
  refine ⟨cols, w2, h, ?_, by omega, ?_⟩
  · rw [hlen, length_sortKeys]
  · intro hrd hres
    subst hrd
    rw [groupsLoop_root_none] at h
    have hcols : cols = (sortKeys keyLe
        (((filterClass cls rows).map keyOf).dedup)).map (fun k =>
          mkColl k (((filterClass cls rows).filter
            (fun r => keyOf r == k)).filterMap (rowEntry world))) := by
      have := h
      injection this with h2
      injection h2 with h3 h4
      exact h3.symm
    rw [hcols, List.map_map]
    rw [← hpart]
    congr 1
    apply List.map_congr_left
    intro k _
    show (((filterClass cls rows).filter
      (fun r => keyOf r == k)).filterMap (rowEntry world)).length = _
    exact (filterMap_rowEntry_all world _
      (fun r hr => hres r (List.mem_filter.1 hr).1)).1

/-- Witness for `get_events_group_counts` on a two-row, one-key table
with a resolvable world. -/
theorem get_events_group_counts_witness :
    (∀ p, (fun (_ : String) => false) p = false) ∧
    (∃ cols w2,
      get_events (fun _ => true) (fun _ => false) none ClassFilter.noFilter
        sampleWorld [sampleRow, sampleRow] = .ok (cols, w2) ∧
      cols.length =
        ((filterClass ClassFilter.noFilter [sampleRow, sampleRow]).map
          keyOf).dedup.length ∧
      (cols.map (fun c => c.numtraces)).sum ≤
        (filterClass ClassFilter.noFilter [sampleRow, sampleRow]).length ∧
      ((none : Option String) = none →
        (∀ r ∈ filterClass ClassFilter.noFilter [sampleRow, sampleRow],
          ∃ t, sampleWorld (fileUrl r) = some [t]) →
        (cols.map (fun c => c.numtraces)).sum =
          (filterClass ClassFilter.noFilter [sampleRow, sampleRow]).length)) :=
  ⟨fun _ => rfl, get_events_group_counts (fun _ => true) (fun _ => false)
    none ClassFilter.noFilter sampleWorld [sampleRow, sampleRow]
    (fun _ => rfl)⟩

/-- C4: one failing row in a channel group (unreadable stream, or a
stream with more than one trace) is discarded alone: the group resolves
to exactly the entries of the other rows, in order, and neither the group
nor the overall `get_events` sequence is aborted. -/
theorem group_failure_containment (wk mk : String → Bool) (world : Reader)
    (pre post : List CatalogRow) (bad : CatalogRow)
    (hok : ∀ r ∈ pre ++ post, ∃ t, world (fileUrl r) = some [t])
    (hbad : ∀ t, world (fileUrl bad) ≠ some [t]) :
    ∃ data,
      processGroup wk mk none world (pre ++ bad :: post) = .ok (data, world) ∧
      data.length = (pre ++ bad :: post).length - 1 ∧
      data.map Prod.snd = pre ++ post ∧
      (∀ p ∈ data, world (fileUrl p.2) = some [p.1]) ∧
      (∃ cols w2,
        get_events wk mk none ClassFilter.noFilter world (pre ++ bad :: post) =
          .ok (cols, w2) ∧
        cols.length = (((pre ++ bad :: post).map keyOf).dedup).length) := by
  have hbadEntry : rowEntry world bad = none := by
    unfold rowEntry
    cases hw : world (fileUrl bad) with
    | none => rfl
    | some s =>
      cases s with
      | nil => rfl
      | cons t ts =>
        cases ts with
        | nil => exact absurd hw (hbad t)
        | cons t2 ts2 => rfl
  have hpre := filterMap_rowEntry_all world pre
    (fun r hr => hok r (by simp [hr]))
  have hpost := filterMap_rowEntry_all world post
    (fun r hr => hok r (by simp [hr]))
  refine ⟨(pre ++ bad :: post).filterMap (rowEntry world),
    processGroup_root_none wk mk world _, ?_, ?_, ?_, ?_⟩
  · rw [List.filterMap_append, List.filterMap_cons, hbadEntry]
    simp [hpre.1, hpost.1]
  · rw [List.filterMap_append, List.filterMap_cons, hbadEntry]
    simp [hpre.2.1, hpost.2.1]
  · intro p hp
    rw [List.filterMap_append, List.filterMap_cons, hbadEntry] at hp
    rw [List.mem_append] at hp
    rcases hp with hp | hp
    · exact hpre.2.2 p hp
    · exact hpost.2.2 p hp
  · refine ⟨(sortKeys keyLe (((pre ++ bad :: post).map keyOf).dedup)).map
      (fun k => mkColl k (((pre ++ bad :: post).filter
        (fun r => keyOf r == k)).filterMap (rowEntry world))), world, ?_, ?_⟩
    · show groupsLoop wk mk none (pre ++ bad :: post) world _ = _
      rw [groupsLoop_root_none]
      rfl
    · rw [List.length_map, length_sortKeys]

/-- Witness for `group_failure_containment`: a two-good-rows plus
one-bad-row group. -/
theorem group_failure_containment_witness :
    (∀ r ∈ [sampleRow] ++ [sampleRow], ∃ t,
      sampleWorld (fileUrl r) = some [t]) ∧
    (∀ t, sampleWorld (fileUrl badRow) ≠ some [t]) ∧
    (∃ data,
      processGroup (fun _ => true) (fun _ => false) none sampleWorld
        ([sampleRow] ++ badRow :: [sampleRow]) = .ok (data, sampleWorld) ∧
      data.length = ([sampleRow] ++ badRow :: [sampleRow]).length - 1 ∧
      data.map Prod.snd = [sampleRow] ++ [sampleRow] ∧
      (∀ p ∈ data, sampleWorld (fileUrl p.2) = some [p.1]) ∧
      (∃ cols w2,
        get_events (fun _ => true) (fun _ => false) none ClassFilter.noFilter
          sampleWorld ([sampleRow] ++ badRow :: [sampleRow]) =
            .ok (cols, w2) ∧
        cols.length =
          ((([sampleRow] ++ badRow :: [sampleRow]).map keyOf).dedup).length)) := by
  have hok : ∀ r ∈ [sampleRow] ++ [sampleRow], ∃ t,
      sampleWorld (fileUrl r) = some [t] := by
    intro r hr
    have hreq : r = sampleRow := by
      simp only [List.mem_append, List.mem_singleton] at hr
      rcases hr with h | h <;> exact h
    subst hreq
    exact ⟨sampleTrace, by decide⟩
  have hbad : ∀ t, sampleWorld (fileUrl badRow) ≠ some [t] := by
    intro t h
    have hn : sampleWorld (fileUrl badRow) = none := by decide
    rw [hn] at h
    exact Option.noConfusion h
  exact ⟨hok, hbad, group_failure_containment (fun _ => true) (fun _ => false)
    sampleWorld [sampleRow] [sampleRow] badRow hok hbad⟩

-- ----------------------------------------------------------------------
-- Cache determinism and persistence
-- ----------------------------------------------------------------------

theorem cachePathOpt_some (rd : String) (row : CatalogRow) (hrd : rd ≠ "") :
    cachePathOpt (some rd) row = some (filePath rd row) := by
  unfold cachePathOpt
  have : truthyStr (some rd) = true := by simp [truthyStr, hrd]
  rw [this]
  rfl

theorem resolveStream_cache_hit (wk mk : String → Bool) (rd : String)
    (w3 : Reader) (row : CatalogRow) (s : List Trace) (hrd : rd ≠ "")
    (hhit : w3 (filePath rd row) = some s) :
    resolveStream wk mk (some rd) w3 row = .ok (some s, w3) := by
  unfold resolveStream
  rw [cachePathOpt_some rd row hrd,
    readStreamD_some_loc w3 _ (filePath_ne_empty rd row), hhit]

/-- C5: the cache path is a pure function of the root directory and the
channel key of the row and descriptive attributes (fields not in the path do
not affect it), and once a first resolution has succeeded and its result
is persisted at that path, a second resolution of the same row under the
same root directory is a pure cache hit: its outcome is the cached
stream, the world is unchanged, and the outcome is the same under every
world agreeing on the cache path — the remote URL is never consulted. -/
theorem resolver_cache_determinism (wk mk : String → Bool) (rd : String)
    (world world2 : Reader) (row : CatalogRow) (s : List Trace)
    (hrd : rd ≠ "")
    (hfirst : resolveStream wk mk (some rd) world row = .ok (some s, world2))
    (hpersist : world2 (filePath rd row) = some s) :
    resolveStream wk mk (some rd) world2 row = .ok (some s, world2) ∧
    (∀ w3 : Reader, w3 (filePath rd row) = some s →
      resolveStream wk mk (some rd) w3 row = .ok (some s, w3)) ∧
    (∀ row2 : CatalogRow, row2.net = row.net → row2.sta = row.sta →
      row2.loc = row.loc → row2.cha = row.cha → row2.magS = row.magS →
      row2.latS = row.latS → row2.lonS = row.lonS →
      row2.depthS = row.depthS → row2.timeS = row.timeS →
      filePath rd row2 = filePath rd row) := by
  refine ⟨resolveStream_cache_hit wk mk rd world2 row s hrd hpersist,
    fun w3 hw3 => resolveStream_cache_hit wk mk rd w3 row s hrd hw3, ?_⟩
  intro row2 h1 h2 h3 h4 h5 h6 h7 h8 h9
  unfold filePath channelIdStr cacheFileName keyOf
  rw [h1, h2, h3, h4, h5, h6, h7, h8, h9]

/-- Witness for `resolver_cache_determinism`: a first cache-missing,
fetching, persisting resolution followed by the cache-hitting second
resolution. -/
theorem resolver_cache_determinism_witness :
    ("root" : String) ≠ "" ∧
    resolveStream (fun _ => true) (fun _ => false) (some "root") sampleWorld
      sampleRow =
      .ok (some [sampleTrace],
        setFile sampleWorld (filePath "root" sampleRow) [sampleTrace]) ∧
    setFile sampleWorld (filePath "root" sampleRow) [sampleTrace]
      (filePath "root" sampleRow) = some [sampleTrace] ∧
    resolveStream (fun _ => true) (fun _ => false) (some "root")
      (setFile sampleWorld (filePath "root" sampleRow) [sampleTrace])
      sampleRow =
      .ok (some [sampleTrace],
        setFile sampleWorld (filePath "root" sampleRow) [sampleTrace]) := by
  have hrd : ("root" : String) ≠ "" := by decide
  have hfirst : resolveStream (fun _ => true) (fun _ => false) (some "root")
      sampleWorld sampleRow =
      .ok (some [sampleTrace],
        setFile sampleWorld (filePath "root" sampleRow) [sampleTrace]) := by
    rfl
  have hpersist : setFile sampleWorld (filePath "root" sampleRow)
      [sampleTrace] (filePath "root" sampleRow) = some [sampleTrace] := by
    unfold setFile
    rw [if_pos rfl]
  exact ⟨hrd, hfirst, hpersist,
    (resolver_cache_determinism (fun _ => true) (fun _ => false) "root"
      sampleWorld _ sampleRow [sampleTrace] hrd hfirst hpersist).1⟩

/-- C6 counterexample: a cache-missing row whose fetch succeeds but whose
cache-directory creation raises.  The unguarded `makedirs` call (utils.py
lines 119-120, outside the try/except that protects `stream.write`)
turns the successful fetch into an aborted resolution, contradicting the
claim that any failure during persistence is swallowed. -/
theorem resolver_mkdir_failure_not_swallowed :
    sampleWorld (filePath "root" sampleRow) = none ∧
    sampleWorld (fileUrl sampleRow) = some [sampleTrace] ∧
    resolveStream (fun _ => true) (fun _ => true) (some "root") sampleWorld
      sampleRow = .error "makedirs raised" := by
  refine ⟨by decide, by decide, ?_⟩
  rfl

/-- C6 (amended): for a row with a cache miss whose remote fetch succeeds
and whose cache path was given, the resolver attempts to persist at that
path; a failure of the write step itself is swallowed and the resolution
still returns the fetched waveform — but only provided the directory
creation step does not raise (its failure is not caught and aborts the
resolution, see `resolver_mkdir_failure_not_swallowed`). -/
theorem resolver_persist_swallow (wk mk : String → Bool) (rd : String)
    (world : Reader) (row : CatalogRow) (s : List Trace)
    (hrd : rd ≠ "")
    (hmiss : world (filePath rd row) = none)
    (hfetch : world (fileUrl row) = some s)
    (hmk : mk (dirname (filePath rd row)) = false) :
    resolveStream wk mk (some rd) world row =
      .ok (some s,
        if wk (filePath rd row) then setFile world (filePath rd row) s
        else world) := by
  unfold resolveStream
  rw [cachePathOpt_some rd row hrd,
    readStreamD_some_loc world _ (filePath_ne_empty rd row), hmiss,
    readStreamD_some_loc world _ (fileUrl_ne_empty row), hfetch]
  dsimp only
  have ht : truthyStr (some (filePath rd row)) = true := by
    simp [truthyStr, filePath_ne_empty rd row]
  rw [ht, if_pos rfl, hmk]
  rw [if_neg (by simp)]
  by_cases hwk : wk (filePath rd row) = true
  · rw [if_pos hwk, if_pos hwk]
  · rw [if_neg hwk, if_neg hwk]

/-- Witness for `resolver_persist_swallow` with a failing write
(`writeOk` false everywhere): the fetched stream is still returned. -/
theorem resolver_persist_swallow_witness :
    ("root" : String) ≠ "" ∧
    sampleWorld (filePath "root" sampleRow) = none ∧
    sampleWorld (fileUrl sampleRow) = some [sampleTrace] ∧
    (fun (_ : String) => false) (dirname (filePath "root" sampleRow)) = false ∧
    resolveStream (fun _ => false) (fun _ => false) (some "root") sampleWorld
      sampleRow =
      .ok (some [sampleTrace],
        if (fun (_ : String) => false) (filePath "root" sampleRow) then
          setFile sampleWorld (filePath "root" sampleRow) [sampleTrace]
        else sampleWorld) := by
  refine ⟨by decide, by decide, by decide, rfl, ?_⟩
  exact resolver_persist_swallow (fun _ => false) (fun _ => false) "root"
    sampleWorld sampleRow [sampleTrace] (by decide) (by decide) (by decide) rfl

/-- C10: `read_stream` at its default `raise_on_err=False` never raises —
it returns a parsed stream or `None`; a `None` or empty locator yields
`None`; consequently grouping without a `root_dir` (no cache path) skips
the local-cache step without error and proceeds directly to the remote
fetch, leaving the world untouched. -/
theorem read_stream_never_raises (world : Reader) (loc : Option String) :
    (∃ r, read_stream world loc false = .ok r) ∧
    ((loc = none ∨ loc = some "") → read_stream world loc false = .ok none) ∧
    (∀ wk mk row, resolveStream wk mk none world row =
      .ok (world (fileUrl row), world)) := by
  refine ⟨?_, ?_, fun wk mk row => resolveStream_root_none wk mk world row⟩
  · unfold read_stream
    by_cases ht : truthyStr loc = false
    · rw [if_pos ht]
      exact ⟨none, rfl⟩
    · rw [if_neg ht]
      cases hw : world (loc.getD "") with
      | some s => exact ⟨some s, rfl⟩
      | none => exact ⟨none, rfl⟩
  · intro h
    rcases h with h | h <;> subst h <;> rfl

/-- Witness for `read_stream_never_raises` at the `None` locator. -/
theorem read_stream_never_raises_witness :
    read_stream sampleWorld none false = .ok none :=
  (read_stream_never_raises sampleWorld none).2.1 (Or.inl rfl)

-- ----------------------------------------------------------------------
-- Loader lemmas
-- ----------------------------------------------------------------------

theorem anyFix (rows : List RawRow) (p : RawRow → Bool)
    (hp : ∀ r, p (fixLoc r) = p r) :
    ((rows.map fixLoc).any p = true) ↔ (∃ r ∈ rows, p r = true) := by
  rw [List.any_map, show (p ∘ fixLoc) = p from funext hp, List.any_eq_true]

theorem load_fatal_error (rows : List RawRow) (r : RawRow) (hr : r ∈ rows)
    (hf : hasFatalMissing r = true) :
    _load_input_dataframe rows = .error "AssertionError" := by
  have hone :
      ((rows.map fixLoc).any (fun x => x.starttime.isNone) = true) ∨
      ((rows.map fixLoc).any (fun x => x.endtime.isNone) = true) ∨
      ((rows.map fixLoc).any (fun x => x.time.isNone) = true) ∨
      ((rows.map fixLoc).any (fun x => x.net.isNone) = true) ∨
      ((rows.map fixLoc).any (fun x => x.sta.isNone) = true) ∨
      ((rows.map fixLoc).any (fun x => x.cha.isNone) = true) ∨
      ((rows.map fixLoc).any (fun x => x.magtype.isNone) = true) ∨
      ((rows.map fixLoc).any (fun x => x.classlabel.isNone) = true) ∨
      ((rows.map fixLoc).any (fun x => x.url.isNone) = true) := by
    simp only [hasFatalMissing, Bool.or_eq_true] at hf
    rcases hf with ((((((((f1 | f2) | f3) | f4) | f5) | f7) | f8) | f9) | f10)
    · exact Or.inl ((anyFix rows (fun x => x.starttime.isNone) (fun x => rfl)).2 ⟨r, hr, f1⟩)
    · exact Or.inr (Or.inl ((anyFix rows (fun x => x.endtime.isNone) (fun x => rfl)).2 ⟨r, hr, f2⟩))
    · exact Or.inr (Or.inr (Or.inl
        ((anyFix rows (fun x => x.time.isNone) (fun x => rfl)).2 ⟨r, hr, f3⟩)))
    · exact Or.inr (Or.inr (Or.inr (Or.inl
        ((anyFix rows (fun x => x.net.isNone) (fun x => rfl)).2 ⟨r, hr, f4⟩))))
    · exact Or.inr (Or.inr (Or.inr (Or.inr (Or.inl
        ((anyFix rows (fun x => x.sta.isNone) (fun x => rfl)).2 ⟨r, hr, f5⟩)))))
    · exact Or.inr (Or.inr (Or.inr (Or.inr (Or.inr (Or.inl
        ((anyFix rows (fun x => x.cha.isNone) (fun x => rfl)).2 ⟨r, hr, f7⟩))))))
    · exact Or.inr (Or.inr (Or.inr (Or.inr (Or.inr (Or.inr (Or.inl
        ((anyFix rows (fun x => x.magtype.isNone) (fun x => rfl)).2 ⟨r, hr, f8⟩)))))))
    · exact Or.inr (Or.inr (Or.inr (Or.inr (Or.inr (Or.inr (Or.inr (Or.inl
        ((anyFix rows (fun x => x.classlabel.isNone) (fun x => rfl)).2 ⟨r, hr, f9⟩))))))))
    · exact Or.inr (Or.inr (Or.inr (Or.inr (Or.inr (Or.inr (Or.inr (Or.inr
        ((anyFix rows (fun x => x.url.isNone) (fun x => rfl)).2 ⟨r, hr, f10⟩))))))))
  unfold _load_input_dataframe
  by_cases h1 : ((rows.map fixLoc).any (fun x => x.starttime.isNone)) = true
  · rw [if_pos h1]
  rw [if_neg h1]
  by_cases h2 : ((rows.map fixLoc).any (fun x => x.endtime.isNone)) = true
  · rw [if_pos h2]
  rw [if_neg h2]
  by_cases h3 : ((rows.map fixLoc).any (fun x => x.time.isNone)) = true
  · rw [if_pos h3]
  rw [if_neg h3]
  by_cases h4 : ((rows.map fixLoc).any (fun x => x.net.isNone)) = true
  · rw [if_pos h4]
  rw [if_neg h4]
  by_cases h5 : ((rows.map fixLoc).any (fun x => x.sta.isNone)) = true
  · rw [if_pos h5]
  rw [if_neg h5]
  by_cases h6 : ((rows.map fixLoc).any (fun x => x.loc.isNone)) = true
  · rw [if_pos h6]
  rw [if_neg h6]
  by_cases h7 : ((rows.map fixLoc).any (fun x => x.cha.isNone)) = true
  · rw [if_pos h7]
  rw [if_neg h7]
  by_cases h8 : ((rows.map fixLoc).any (fun x => x.magtype.isNone)) = true
  · rw [if_pos h8]
  rw [if_neg h8]
  by_cases h9 : ((rows.map fixLoc).any (fun x => x.classlabel.isNone)) = true
  · rw [if_pos h9]
  rw [if_neg h9]
  by_cases h10 : ((rows.map fixLoc).any (fun x => x.url.isNone)) = true
  · rw [if_pos h10]
  rw [if_neg h10]
  rcases hone with o | o | o | o | o | o | o | o | o
  · exact absurd o h1
  · exact absurd o h2
  · exact absurd o h3
  · exact absurd o h4
  · exact absurd o h5
  · exact absurd o h7
  · exact absurd o h8
  · exact absurd o h9
  · exact absurd o h10

theorem load_all_good (rows : List RawRow)
    (hall : ∀ r ∈ rows, hasFatalMissing r = false) :
    _load_input_dataframe rows = .ok (rows.map loadRow) := by
  have hfield : ∀ (p : RawRow → Bool), (∀ r, p (fixLoc r) = p r) →
      (∀ r, p r = true → hasFatalMissing r = true) →
      ((rows.map fixLoc).any p) = false := by
    intro p hp himp
    by_contra hne
    have htrue : (rows.map fixLoc).any p = true := by
      cases hcase : (rows.map fixLoc).any p
      · exact absurd hcase hne
      · rfl
    obtain ⟨r, hr, hpr⟩ := (anyFix rows p hp).1 htrue
    have := himp r hpr
    rw [hall r hr] at this
    exact Bool.noConfusion this
  have hloc : ((rows.map fixLoc).any (fun r => r.loc.isNone)) = false := by
    rw [List.any_map]
    rw [List.any_eq_false]
    intro r _
    simp [Function.comp, fixLoc]
  unfold _load_input_dataframe
  rw [hfield (fun r => r.starttime.isNone) (fun r => rfl)
      (fun r h => by simp [hasFatalMissing, h]),
    hfield (fun r => r.endtime.isNone) (fun r => rfl)
      (fun r h => by simp [hasFatalMissing, h]),
    hfield (fun r => r.time.isNone) (fun r => rfl)
      (fun r h => by simp [hasFatalMissing, h]),
    hfield (fun r => r.net.isNone) (fun r => rfl)
      (fun r h => by simp [hasFatalMissing, h]),
    hfield (fun r => r.sta.isNone) (fun r => rfl)
      (fun r h => by simp [hasFatalMissing, h]),
    hloc,
    hfield (fun r => r.cha.isNone) (fun r => rfl)
      (fun r h => by simp [hasFatalMissing, h]),
    hfield (fun r => r.magtype.isNone) (fun r => rfl)
      (fun r h => by simp [hasFatalMissing, h]),
    hfield (fun r => r.classlabel.isNone) (fun r => rfl)
      (fun r h => by simp [hasFatalMissing, h]),
    hfield (fun r => r.url.isNone) (fun r => rfl)
      (fun r h => by simp [hasFatalMissing, h])]
  rfl

/-- C8 counterexample: a catalog whose `location` column contains a
missing value loads successfully — the loader converts the missing
location to the empty string (utils.py line 56) before the no-missing
asserts run, so a missing location never fails the load, contrary to the
claim that a missing value in the location column makes it fail. -/
theorem load_missing_location_loads :
    rawNoLoc.loc = none ∧
    _load_input_dataframe [rawNoLoc] = .ok [loadRow rawNoLoc] ∧
    (loadRow rawNoLoc).loc = CsvCell.str "" :=
  ⟨rfl, rfl, rfl⟩

/-- C8 (amended): the load fails (`AssertionError`, the model of
`MalformedCatalogError`) exactly when one of network, station, channel,
magnitude type, class label, url or the start/end/event time columns —
location excluded — contains a missing value; after a successful load
none of those columns is missing, and a missing location has been
normalised to the empty string.  For a present location the loader
itself passes the delivered cell through unchanged; whether that cell
still holds the original text or was already turned into a number by the
dtype inference of `pd.read_csv` (utils.py line 54) is outside the
loader and not guaranteed. -/
theorem load_missing_value_spec (rows : List RawRow) :
    ((∃ e, _load_input_dataframe rows = .error e) ↔
      ∃ r ∈ rows, hasFatalMissing r = true) ∧
    ((∀ r ∈ rows, hasFatalMissing r = false) →
      _load_input_dataframe rows = .ok (rows.map loadRow)) ∧
    (∀ r : RawRow, (loadRow r).loc = r.loc.getD (CsvCell.str "") ∧
      ∀ c, r.loc = some c → (loadRow r).loc = c) := by
  refine ⟨⟨?_, ?_⟩, load_all_good rows, ?_⟩
  · rintro ⟨e, he⟩
    by_contra hno
    push_neg at hno
    have hall : ∀ r ∈ rows, hasFatalMissing r = false := by
      intro r hr
      have hn := hno r hr
      cases hcase : hasFatalMissing r
      · rfl
      · exact absurd hcase hn
    rw [load_all_good rows hall] at he
    exact Except.noConfusion he
  · rintro ⟨r, hr, hf⟩
    exact ⟨"AssertionError", load_fatal_error rows r hr hf⟩
  · intro r
    refine ⟨rfl, fun c hc => ?_⟩
    rw [show (loadRow r).loc = r.loc.getD (CsvCell.str "") from rfl, hc]
    rfl

/-- Witness for `load_missing_value_spec`: a fully-present row loads to
its normalised form. -/
theorem load_missing_value_spec_witness :
    (∀ r ∈ [rawGood], hasFatalMissing r = false) ∧
    _load_input_dataframe [rawGood] = .ok ([rawGood].map loadRow) :=
  ⟨by decide, (load_missing_value_spec [rawGood]).2.1 (by decide)⟩

-- ----------------------------------------------------------------------
-- download.py batch pass
-- ----------------------------------------------------------------------

theorem pyFormat_done_one_arg (a : String) :
    pyFormat doneFmt.toList [a] =
      .error "not enough arguments for format string" := rfl

theorem batchStats_total (isfile : String → Bool)
    (read_mseed : String → Except String (List Trace))
    (detrend : Trace → Trace) (writeRes : String → Except String Unit)
    (rootdir : String) (rows : List DLRow) :
    (batchStats isfile read_mseed detrend writeRes rootdir rows).1 +
      (batchStats isfile read_mseed detrend writeRes rootdir rows).2 =
      rows.length := by
  unfold batchStats
  suffices h : ∀ (s : Nat × Nat), (rows.foldl
      (fun acc r =>
        match download_waveform isfile read_mseed detrend writeRes rootdir r with
        | .ok _ => (acc.1 + 1, acc.2)
        | .error _ => (acc.1, acc.2 + 1)) s).1 +
      (rows.foldl
      (fun acc r =>
        match download_waveform isfile read_mseed detrend writeRes rootdir r with
        | .ok _ => (acc.1 + 1, acc.2)
        | .error _ => (acc.1, acc.2 + 1)) s).2 = s.1 + s.2 + rows.length by
    have := h (0, 0)
    simpa using this
  induction rows with
  | nil => intro s; simp
  | cons r rs ih =>
    intro s
    rw [List.foldl_cons]
    cases hdl : download_waveform isfile read_mseed detrend writeRes rootdir r with
    | ok u =>
      have := ih (s.1 + 1, s.2)
      simp only [List.length_cons]
      omega
    | error e =>
      have := ih (s.1, s.2 + 1)
      simp only [List.length_cons]
      omega

/-- C7 (code bug): the batch loop of download.py processes every row —
each row either increments the saved count or only prints a warning, so
saved + warned = number of rows — but the final report
`print("Done, %d segment saved under %s" % (saved, ))` supplies one
argument to a two-directive format string and raises `TypeError`, so the
batch pass never reports the final count of successfully saved rows. -/
theorem download_batch_reports_crash (isfile : String → Bool)
    (read_mseed : String → Except String (List Trace))
    (detrend : Trace → Trace) (writeRes : String → Except String Unit)
    (rootdir : String) (rows : List DLRow) :
    (batchStats isfile read_mseed detrend writeRes rootdir rows).1 +
      (batchStats isfile read_mseed detrend writeRes rootdir rows).2 =
      rows.length ∧
    download_main isfile read_mseed detrend writeRes rootdir rows =
      .error "not enough arguments for format string" := by
  refine ⟨batchStats_total isfile read_mseed detrend writeRes rootdir rows, ?_⟩
  simp only [download_main, pyFormat_done_one_arg]
